import Mathlib

/-!
Shallow embedding of the UOL news scraping pipeline sources
(uol_links_extraction.py and uol_news_extraction.py).

Python strings are modelled as lists of characters.  Python string
operations used by the code (split on a substring, substring test,
int of a digit string, whitespace cleaning) are embedded as executable
functions below.  HTTP traffic is modelled by an oracle giving the
outcome of every attempted GET, and parsed HTML pages are modelled by
the projections the code reads from them: the list of anchor elements
with their href attributes, and the texts of the div elements matching
each of the two content selectors.
-/

namespace UolScrape

abbrev Str := List Char

/-- Characters of the scheme token used by href_filter. -/
def httpChars : Str := ['h', 't', 't', 'p']

/-- Characters of the archive marker used by get_real_url_date. -/
def webMarker : Str := ['/', 'w', 'e', 'b', '/']

/-- The separator sep occurs in s at position i. -/
def matchAt (sep s : Str) (i : Nat) : Prop := sep <+: s.drop i

instance (sep s : Str) (i : Nat) : Decidable (matchAt sep s i) :=
  inferInstanceAs (Decidable (sep <+: s.drop i))

/-- Embedding of the Python substring test (sub in s). -/
def containsSub (sep : Str) : Str → Bool
  | [] => sep.isEmpty
  | c :: rest => sep.isPrefixOf (c :: rest) || containsSub sep rest

/-- Fuel bound scan for Python str.split on a non-empty separator; the
fuel always dominates the length of the scanned list. -/
def splitAux (sep : Str) : Nat → Str → List Str
  | _, [] => [[]]
  | 0, s => [s]
  | fuel + 1, c :: rest =>
    if sep.isPrefixOf (c :: rest) then
      [] :: splitAux sep fuel ((c :: rest).drop sep.length)
    else
      (splitAux sep fuel rest).modifyHead (fun p => c :: p)

/-- Embedding of Python str.split for a non-empty separator. -/
def pySplit (sep s : Str) : List Str := splitAux sep s.length s

/-- Last element of a list of strings with a default, mirroring the
Python index -1 on the never-empty result of split. -/
def lastD : List Str → Str → Str
  | [], d => d
  | x :: xs, _ => lastD xs x

/-- Embedding of href_filter from uol_links_extraction.py, the lambda
taking u to "http" + u.split("http")[-1]. -/
def href_filter (u : Str) : Str := httpChars ++ lastD (pySplit httpChars u) []

/-- Embedding of Python int on a string of decimal digits. -/
def pyInt (s : Str) : Nat := s.foldl (fun a c => 10 * a + (c.toNat - '0'.toNat)) 0

/-- Embedding of get_real_url_date from uol_links_extraction.py:
date = url.split("/web/")[1][:8], then (int(date[:4]), int(date[4:6])).
The Python index [1] raises IndexError when the marker is absent; all
statements below about this function hypothesise a URL in which the
marker occurs, so the total default used here is never reached. -/
def get_real_url_date (url : Str) : Nat × Nat :=
  let date := ((pySplit webMarker url).getD 1 []).take 8
  (pyInt (date.take 4), pyInt ((date.drop 4).take 2))

/-- Characters matched by the regex class backslash-s in Python. -/
def pyIsSpace (c : Char) : Bool :=
  c = ' ' || c = '\t' || c = '\n' || c = '\r' || c = '\x0b' || c = '\x0c'

/-- Embedding of re.sub collapsing every maximal whitespace run into one
space; the flag records whether the previous character was whitespace. -/
def collapseWsAux : Bool → Str → Str
  | _, [] => []
  | prevWs, c :: rest =>
    if pyIsSpace c then
      if prevWs then collapseWsAux true rest else ' ' :: collapseWsAux true rest
    else c :: collapseWsAux false rest

def collapseWs (s : Str) : Str := collapseWsAux false s

/-- Embedding of Python str.strip. -/
def pyStrip (s : Str) : Str :=
  (((s.dropWhile pyIsSpace).reverse.dropWhile pyIsSpace).reverse)

/-- An anchor element as read by the link extraction worker. -/
structure Anchor where
  href : Option Str
deriving DecidableEq

/-- The projections of a parsed HTML document that the two workers read:
all anchors, the texts of the div elements with class "text", and the
texts of the div elements with id "texto". -/
structure Html where
  anchors : List Anchor
  divsClassText : List Str
  divsIdTexto : List Str
deriving DecidableEq

/-- An HTTP response as used by the code: status code, the final
redirected URL, and the parsed body. -/
structure Response where
  status : Nat
  url : Str
  html : Html
deriving DecidableEq

/-- The retryable transport exceptions caught by both retry loops. -/
inductive ReqError
  | connectionError
  | readTimeout
  | requestException
deriving DecidableEq

/-- Outcome of one attempted GET: a raised transport exception or a
returned response. -/
inductive AttemptOutcome
  | exn (e : ReqError)
  | resp (r : Response)
deriving DecidableEq

def isExn : AttemptOutcome → Bool
  | .exn _ => true
  | .resp _ => false

/-- The retry loop of the link extraction worker, lines 67 to 83: up to
a bounded number of attempts, an exception sleeps and retries, any
returned response breaks the loop immediately; the pair carries the
response (none when the for loop fell through to its else branch) and
the number of attempts consumed starting from index i. -/
def tryLoop (attempt : Nat → AttemptOutcome) : Nat → Nat → Option Response × Nat
  | i, 0 => (none, i)
  | i, k + 1 =>
    match attempt i with
    | .exn _ => tryLoop attempt (i + 1) k
    | .resp r => (some r, i + 1)

namespace Links

/-- The three-attempt fetch of the link extraction worker. -/
def fetchWithRetries (attempt : Nat → AttemptOutcome) : Option Response × Nat :=
  tryLoop attempt 0 3

def OUTPUT_FILES_PATH : String := "out/uol_links"

/-- Embedding of os.path.join on this platform. -/
def pathJoin (a b : String) : String := a ++ "/" ++ b

/-- The f-string pattern tested against each href. -/
def yearPattern (y : Nat) : Str := '/' :: (toString y).data ++ ['/']

/-- Body of the anchor loop of lines 96 to 103: an anchor with a
non-null href containing the actual-year pattern adds its filtered href
to the accumulated set. -/
def linkStep (ay : Nat) (acc : List Str) (a : Anchor) : List Str :=
  match a.href with
  | none => acc
  | some h =>
    if containsSub (yearPattern ay) h then
      if href_filter h ∈ acc then acc else acc ++ [href_filter h]
    else acc

/-- The per-snapshot link set of lines 95 to 103.  The Python set is
modelled as an insertion-ordered duplicate-free list; the claims proved
about it are insensitive to iteration order. -/
def snapshotLinks (r : Response) (ay : Nat) : List Str :=
  r.html.anchors.foldl (linkStep ay) []

/-- Effect of one iteration of the snapshot loop: the loss counter
increment, the directories created, and the file append performed. -/
structure UnitResult where
  lossDelta : Nat
  dirsCreated : List String
  write : Option (String × Str)
deriving DecidableEq

/-- One iteration of the snapshot loop of worker, lines 66 to 114. -/
def processSnapshot (attempt : Nat → AttemptOutcome) (year : Nat) : UnitResult :=
  match (fetchWithRetries attempt).1 with
  | none => ⟨1, [], none⟩
  | some r =>
    if r.status ≠ 200 then ⟨1, [], none⟩
    else
      let ay := (get_real_url_date r.url).1
      let am := (get_real_url_date r.url).2
      let links := snapshotLinks r ay
      let fname := toString am ++ "-" ++ toString ay ++ ".txt"
      let content := List.intercalate ['\n'] links ++ ['\n']
      if year ≠ ay then
        let adjDir := pathJoin OUTPUT_FILES_PATH (toString ay)
        ⟨0, [adjDir], some (pathJoin adjDir fname, content)⟩
      else
        ⟨0, [], some (pathJoin (pathJoin OUTPUT_FILES_PATH (toString year)) fname, content)⟩

/-- The whole snapshot loop of one worker: total loss count and the
sequence of file appends, accumulated in order. -/
def workerRun (year : Nat) : List (Nat → AttemptOutcome) → Nat × List (String × Str)
  | [] => (0, [])
  | u :: us =>
    let r := processSnapshot u year
    let rest := workerRun year us
    (r.lossDelta + rest.1, r.write.toList ++ rest.2)

end Links

namespace News

/-- The retry loop of get_response, lines 102 to 123: a response with a
non-success status is replaced by None and the loop breaks at once;
exceptions sleep and retry; exhausting the attempts yields None. -/
def getRespLoop (attempt : Nat → AttemptOutcome) : Nat → Nat → Option Response × Nat
  | i, 0 => (none, i)
  | i, k + 1 =>
    match attempt i with
    | .exn _ => getRespLoop attempt (i + 1) k
    | .resp r => (if r.status = 200 then some r else none, i + 1)

/-- Embedding of get_response from uol_news_extraction.py. -/
def get_response (attempt : Nat → AttemptOutcome) : Option Response × Nat :=
  getRespLoop attempt 0 3

/-- Embedding of clean_text: re.sub whitespace collapse, strip, lower. -/
def clean_text (t : Str) : Str := (pyStrip (collapseWs t)).map Char.toLower

/-- The two-tier selector of lines 170 to 172: divs with class "text",
falling back to divs with id "texto" when the first list is empty. -/
def selectedDivs (h : Html) : List Str :=
  if h.divsClassText.length = 0 then h.divsIdTexto else h.divsClassText

/-- The uncaught exception a worker task can die with. -/
inductive Crash
  | indexError
deriving DecidableEq

/-- Effect of one article worker task: the shared error counter
increment and the chunk appended to the output file. -/
structure UnitOutcome where
  errorDelta : Nat
  write : Option Str
deriving DecidableEq

/-- Embedding of worker from uol_news_extraction.py, lines 157 to 194.
The subscript divs[0] on line 174 raises IndexError when both selector
lists are empty; that exception escapes the function, which is modelled
by the error branch. -/
def worker (attempt : Nat → AttemptOutcome) : Except Crash UnitOutcome :=
  match (get_response attempt).1 with
  | none => .ok ⟨1, none⟩
  | some r =>
    match selectedDivs r.html with
    | [] => .error .indexError
    | d :: _ =>
      let cleaned := clean_text d
      if cleaned = [] then .ok ⟨1, none⟩ else .ok ⟨0, some (cleaned ++ ['\n'])⟩

/-- The task completed without an uncaught exception. -/
def workerOk (u : Nat → AttemptOutcome) : Bool :=
  match worker u with
  | .ok _ => true
  | .error _ => false

/-- The contribution of one task to the shared ERROR_COUNT: a crashed
task is swallowed by the executor future and increments nothing. -/
def stageErrorDelta (u : Nat → AttemptOutcome) : Nat :=
  match worker u with
  | .ok o => o.errorDelta
  | .error _ => 0

/-- A task produced no output line, whether counted or crashed. -/
def unitNoOutput (u : Nat → AttemptOutcome) : Bool :=
  match worker u with
  | .ok o => o.write.isNone
  | .error _ => true

/-- total_links accumulated by main: the sum of the link counts of the
processed files. -/
def newsTotal (files : List (List (Nat → AttemptOutcome))) : Nat :=
  (files.map List.length).sum

/-- Final value of ERROR_COUNT after the pool drains. -/
def ERROR_COUNT (files : List (List (Nat → AttemptOutcome))) : Nat :=
  ((files.flatten).map stageErrorDelta).sum

/-- The reported succeeded count, total_links - ERROR_COUNT. -/
def reportedSucceeded (files : List (List (Nat → AttemptOutcome))) : Int :=
  (newsTotal files : Int) - (ERROR_COUNT files : Int)

/-- Embedding of the success_rate computation of main, lines 222 to 225,
with float arithmetic modelled exactly over the rationals. -/
def success_rate (files : List (List (Nat → AttemptOutcome))) : ℚ :=
  if 0 < newsTotal files then
    ((newsTotal files : ℚ) - (ERROR_COUNT files : ℚ)) / (newsTotal files : ℚ) * 100
  else 0

end News

end UolScrape

deriving instance DecidableEq for Except

namespace UolScrape

/-! Lemmas about the embedded Python split. -/

theorem matchAt_zero (sep s : Str) : matchAt sep s 0 ↔ sep <+: s := by
  simp [matchAt]

theorem matchAt_succ (sep : Str) (c : Char) (rest : Str) (i : Nat) :
    matchAt sep (c :: rest) (i + 1) ↔ matchAt sep rest i := by
  simp [matchAt]

theorem matchAt_nil (sep : Str) (i : Nat) (h : matchAt sep [] i) : sep = [] := by
  simpa [matchAt] using h

theorem isPrefixOfIff (l1 l2 : Str) : l1.isPrefixOf l2 = true ↔ l1 <+: l2 :=
  List.isPrefixOf_iff_prefix

theorem splitAux_nil (sep : Str) (f : Nat) : splitAux sep f [] = [[]] := by
  cases f <;> rfl

theorem splitAux_cons_pos (sep : Str) (f : Nat) (c : Char) (rest : Str)
    (h : sep.isPrefixOf (c :: rest) = true) :
    splitAux sep (f + 1) (c :: rest) = [] :: splitAux sep f ((c :: rest).drop sep.length) := by
  simp [splitAux, h]

theorem splitAux_cons_neg (sep : Str) (f : Nat) (c : Char) (rest : Str)
    (h : sep.isPrefixOf (c :: rest) = false) :
    splitAux sep (f + 1) (c :: rest) = (splitAux sep f rest).modifyHead (fun p => c :: p) := by
  simp [splitAux, h]

theorem splitAux_ne_nil (sep : Str) : ∀ f s, splitAux sep f s ≠ [] := by
  intro f
  induction f with
  | zero =>
    intro s
    cases s <;> simp [splitAux]
  | succ f ih =>
    intro s
    rcases s with _ | ⟨c, rest⟩
    · simp [splitAux_nil]
    · rcases h : sep.isPrefixOf (c :: rest) with _ | _
      · rw [splitAux_cons_neg sep f c rest h]
        rcases hL : splitAux sep f rest with _ | ⟨x, xs⟩
        · exact absurd hL (ih rest)
        · simp [List.modifyHead]
      · rw [splitAux_cons_pos sep f c rest h]
        simp

theorem splitAux_no_occ (sep : Str) :
    ∀ f s, s.length ≤ f → (∀ i, ¬ matchAt sep s i) → splitAux sep f s = [s] := by
  intro f
  induction f with
  | zero =>
    intro s hle _
    have : s = [] := List.length_eq_zero.mp (Nat.le_zero.mp hle)
    subst this
    exact splitAux_nil sep 0
  | succ f ih =>
    intro s hle hno
    rcases s with _ | ⟨c, rest⟩
    · exact splitAux_nil sep (f + 1)
    · rcases h : sep.isPrefixOf (c :: rest) with _ | _
      · rw [splitAux_cons_neg sep f c rest h]
        have hrest : ∀ i, ¬ matchAt sep rest i := by
          intro i hi
          exact hno (i + 1) ((matchAt_succ sep c rest i).mpr hi)
        rw [ih rest (by simpa using Nat.le_of_succ_le_succ hle) hrest]
        simp [List.modifyHead]
      · exact absurd ((matchAt_zero sep (c :: rest)).mpr (isPrefixOfIff _ _ |>.mp h))
          (hno 0)

theorem splitAux_len_two (sep : Str) (hsep : sep ≠ []) :
    ∀ f s, s.length ≤ f → (∃ i, matchAt sep s i) → 2 ≤ (splitAux sep f s).length := by
  intro f
  induction f with
  | zero =>
    intro s hle hex
    obtain ⟨i, hi⟩ := hex
    have : s = [] := List.length_eq_zero.mp (Nat.le_zero.mp hle)
    subst this
    exact absurd (matchAt_nil sep i hi) hsep
  | succ f ih =>
    intro s hle hex
    rcases s with _ | ⟨c, rest⟩
    · obtain ⟨i, hi⟩ := hex
      exact absurd (matchAt_nil sep i hi) hsep
    · rcases h : sep.isPrefixOf (c :: rest) with _ | _
      · rw [splitAux_cons_neg sep f c rest h]
        obtain ⟨i, hi⟩ := hex
        rcases i with _ | i
        · exact absurd (isPrefixOfIff _ _ |>.mpr ((matchAt_zero sep (c :: rest)).mp hi))
            (by simp [h])
        · have := ih rest (by simpa using Nat.le_of_succ_le_succ hle)
            ⟨i, (matchAt_succ sep c rest i).mp hi⟩
          simpa [List.length_modifyHead] using this
      · rw [splitAux_cons_pos sep f c rest h]
        have := splitAux_ne_nil sep f ((c :: rest).drop sep.length)
        have hpos : 0 < (splitAux sep f ((c :: rest).drop sep.length)).length :=
          List.length_pos.mpr this
        simp only [List.length_cons]
        omega

theorem lastD_cons_nil (x d : Str) : lastD [x] d = x := rfl

theorem lastD_cons_emp (L : List Str) (d : Str) : lastD ([] :: L) d = lastD L [] := rfl

theorem lastD_modifyHead (f : Str → Str) (L : List Str) (d : Str) (h : 2 ≤ L.length) :
    lastD (L.modifyHead f) d = lastD L d := by
  rcases L with _ | ⟨a, _ | ⟨b, t⟩⟩
  · simp at h
  · simp at h
  · rfl

/-- The scheme token has no self overlap: two of its occurrences can
never start less than four characters apart. -/
theorem http_no_overlap (t : Str) (j : Nat) (hj : httpChars <+: (httpChars ++ t).drop j)
    (hj1 : 0 < j) (hj4 : j < 4) : False := by
  interval_cases j <;>
    simp only [httpChars, List.cons_append, List.drop_succ_cons, List.drop_zero,
      List.cons_prefix_cons] at hj <;>
    exact absurd hj.1 (by decide)

/-- The last element of the embedded split is exactly the part of the
scanned string after the last occurrence of the scheme token. -/
theorem splitAux_last_occ :
    ∀ f s, s.length ≤ f → (∃ i, matchAt httpChars s i) →
      ∃ i, matchAt httpChars s i ∧ (∀ j, matchAt httpChars s j → j ≤ i) ∧
        lastD (splitAux httpChars f s) [] = s.drop (i + 4) := by
  intro f
  induction f with
  | zero =>
    intro s hle hex
    obtain ⟨i, hi⟩ := hex
    have : s = [] := List.length_eq_zero.mp (Nat.le_zero.mp hle)
    subst this
    exact absurd (matchAt_nil httpChars i hi) (by decide)
  | succ f ih =>
    intro s hle hex
    rcases s with _ | ⟨c, rest⟩
    · obtain ⟨i, hi⟩ := hex
      exact absurd (matchAt_nil httpChars i hi) (by decide)
    · rcases hp : httpChars.isPrefixOf (c :: rest) with _ | _
      · -- no occurrence at position zero
        rw [splitAux_cons_neg httpChars f c rest hp]
        obtain ⟨i, hi⟩ := hex
        rcases i with _ | k
        · exact absurd (isPrefixOfIff _ _ |>.mpr ((matchAt_zero _ _).mp hi))
            (by simp [hp])
        · have hexr : ∃ i, matchAt httpChars rest i :=
            ⟨k, (matchAt_succ httpChars c rest k).mp hi⟩
          obtain ⟨i', h1, h2, h3⟩ := ih rest (by simpa using Nat.le_of_succ_le_succ hle) hexr
          have h2len : 2 ≤ (splitAux httpChars f rest).length :=
            splitAux_len_two httpChars (by decide) f rest
              (by simpa using Nat.le_of_succ_le_succ hle) hexr
          refine ⟨i' + 1, (matchAt_succ httpChars c rest i').mpr h1, ?_, ?_⟩
          · intro j hj
            rcases j with _ | m
            · exact Nat.zero_le _
            · have := h2 m ((matchAt_succ httpChars c rest m).mp hj)
              omega
          · rw [lastD_modifyHead _ _ _ h2len, h3]
            have : i' + 1 + 4 = (i' + 4) + 1 := by omega
            rw [this, List.drop_succ_cons]
      · -- occurrence at position zero
        have hpre : httpChars <+: (c :: rest) := isPrefixOfIff _ _ |>.mp hp
        have hlen4 : 4 ≤ (c :: rest).length := by
          have := hpre.length_le
          simpa [httpChars] using this
        have hlend : ((c :: rest).drop 4).length ≤ f := by
          simp only [List.length_drop]
          omega
        rw [splitAux_cons_pos httpChars f c rest hp]
        have hsep4 : httpChars.length = 4 := rfl
        rw [hsep4, lastD_cons_emp]
        by_cases hex4 : ∃ i, matchAt httpChars ((c :: rest).drop 4) i
        · obtain ⟨i', h1, h2, h3⟩ := ih ((c :: rest).drop 4) hlend hex4
          refine ⟨i' + 4, ?_, ?_, ?_⟩
          · rw [matchAt, show i' + 4 = 4 + i' from by omega, ← List.drop_drop]
            exact h1
          · intro j hj
            rcases Nat.lt_or_ge j 4 with h | h
            · omega
            · have : matchAt httpChars ((c :: rest).drop 4) (j - 4) := by
                rw [matchAt, List.drop_drop]
                have : 4 + (j - 4) = j := by omega
                rw [this]
                exact hj
              have := h2 _ this
              omega
          · rw [h3, List.drop_drop]
            congr 1
            omega
        · push_neg at hex4
          rw [splitAux_no_occ httpChars f ((c :: rest).drop 4) hlend hex4, lastD_cons_nil]
          refine ⟨0, (matchAt_zero _ _).mpr hpre, ?_, by simp⟩
          intro j hj
          by_contra hlt
          push_neg at hlt
          rcases Nat.lt_or_ge j 4 with h | h
          · obtain ⟨t, ht⟩ := hpre
            rw [matchAt, ← ht] at hj
            exact http_no_overlap t j hj hlt h
          · refine hex4 (j - 4) ?_
            rw [matchAt, List.drop_drop]
            have : 4 + (j - 4) = j := by omega
            rw [this]
            exact hj

/-- The Python substring test decides occurrence of the separator. -/
theorem containsSub_iff (sep : Str) :
    ∀ s, containsSub sep s = true ↔ ∃ i, matchAt sep s i := by
  intro s
  induction s with
  | nil =>
    simp only [containsSub, List.isEmpty_iff]
    constructor
    · intro h
      exact ⟨0, by simp [matchAt, h]⟩
    · intro ⟨i, hi⟩
      exact matchAt_nil sep i hi
  | cons c rest ih =>
    simp only [containsSub, Bool.or_eq_true]
    constructor
    · intro h
      rcases h with h | h
      · exact ⟨0, (matchAt_zero _ _).mpr (isPrefixOfIff _ _ |>.mp h)⟩
      · obtain ⟨i, hi⟩ := ih.mp h
        exact ⟨i + 1, (matchAt_succ sep c rest i).mpr hi⟩
    · intro ⟨i, hi⟩
      rcases i with _ | i
      · exact Or.inl (isPrefixOfIff _ _ |>.mpr ((matchAt_zero _ _).mp hi))
      · exact Or.inr (ih.mpr ⟨i, (matchAt_succ sep c rest i).mp hi⟩)

/-- Example href wrapped by the archive proxy, from the comment block at
the end of uol_links_extraction.py. -/
def exHref : Str :=
  "https://web.archive.org/web/20190602000119/https://site.example/2019/06/x.htm".data

/-- The original target URL inside the example href. -/
def exSuffix : Str := "https://site.example/2019/06/x.htm".data

/-- Claim C3: for every raw anchor href containing at least one
occurrence of the substring http, href_filter returns exactly the
suffix of the href starting at the last occurrence of http. -/
theorem href_filter_last_http_occurrence (u : Str) (h : ∃ i, matchAt httpChars u i) :
    ∃ i, matchAt httpChars u i ∧ (∀ j, matchAt httpChars u j → j ≤ i) ∧
      href_filter u = u.drop i := by
  obtain ⟨i, h1, h2, h3⟩ := splitAux_last_occ u.length u le_rfl h
  refine ⟨i, h1, h2, ?_⟩
  unfold href_filter pySplit
  rw [h3]
  obtain ⟨t, ht⟩ := h1
  have h4 : u.drop (i + 4) = t := by
    have h5 : (u.drop i).drop 4 = t := by
      rw [← ht]
      have h6 := List.drop_left httpChars t
      simp only [httpChars, List.length_cons, List.length_nil] at h6
      exact h6
    rw [List.drop_drop] at h5
    exact h5
  rw [h4, ht]

/-- Witness for claim C3 at the archive-wrapped example href: the
filter recovers the original target URL, the suffix at the last
occurrence of http. -/
theorem href_filter_last_http_occurrence_witness :
    (∃ i, matchAt httpChars exHref i ∧ (∀ j, matchAt httpChars exHref j → j ≤ i) ∧
      href_filter exHref = exHref.drop i) ∧ href_filter exHref = exSuffix :=
  ⟨href_filter_last_http_occurrence exHref ⟨43, by decide⟩, by decide⟩

/-- A filtered href without any occurrence of the scheme token is the
token glued onto the whole original href. -/
theorem href_filter_of_no_http (u : Str) (h : containsSub httpChars u = false) :
    href_filter u = httpChars ++ u := by
  have hno : ∀ i, ¬ matchAt httpChars u i := by
    intro i hi
    have := (containsSub_iff httpChars u).mpr ⟨i, hi⟩
    rw [h] at this
    cases this
  unfold href_filter pySplit
  rw [splitAux_no_occ httpChars u.length u le_rfl hno, lastD_cons_nil]

theorem linkStep_mem (ay : Nat) (acc : List Str) (a : Anchor) (x : Str) (h : x ∈ acc) :
    x ∈ Links.linkStep ay acc a := by
  unfold Links.linkStep
  rcases a.href with _ | u
  · exact h
  · dsimp only
    split
    · split
      · exact h
      · exact List.mem_append_left _ h
    · exact h

theorem foldl_linkStep_mem (ay : Nat) :
    ∀ (anchors : List Anchor) (acc : List Str) (x : Str), x ∈ acc →
      x ∈ anchors.foldl (Links.linkStep ay) acc := by
  intro anchors
  induction anchors with
  | nil => intro acc x h; exact h
  | cons a rest ih =>
    intro acc x h
    exact ih (Links.linkStep ay acc a) x (linkStep_mem ay acc a x h)

/-- Every anchor whose href matches the year pattern contributes its
filtered href to the snapshot link set. -/
theorem snapshotLinks_mem (r : Response) (ay : Nat) (a : Anchor) (u : Str)
    (ha : a ∈ r.html.anchors) (hhref : a.href = some u)
    (hyear : containsSub (Links.yearPattern ay) u = true) :
    href_filter u ∈ Links.snapshotLinks r ay := by
  unfold Links.snapshotLinks
  have key : ∀ (anchors : List Anchor) (acc : List Str), a ∈ anchors →
      href_filter u ∈ anchors.foldl (Links.linkStep ay) acc := by
    intro anchors
    induction anchors with
    | nil => intro acc h; cases h
    | cons b rest ih =>
      intro acc hmem
      rcases List.mem_cons.mp hmem with rfl | hmem
      · refine foldl_linkStep_mem ay rest _ _ ?_
        unfold Links.linkStep
        rw [hhref]
        dsimp only
        rw [if_pos hyear]
        split
        · assumption
        · exact List.mem_append_right _ (List.mem_singleton.mpr rfl)
      · exact ih (Links.linkStep ay acc b) hmem
  exact key r.html.anchors [] ha

/-- Claim C10: an href matching the year pattern but containing no
occurrence of http is turned by href_filter into the malformed string
http glued onto the whole href, and that string is written to the
partition file together with the other links of the snapshot. -/
theorem links_no_http_href_malformed (attempt : Nat → AttemptOutcome) (year : Nat)
    (r : Response) (a : Anchor) (u : Str)
    (hf : (Links.fetchWithRetries attempt).1 = some r)
    (hs : r.status = 200)
    (ha : a ∈ r.html.anchors) (hhref : a.href = some u)
    (hyear : containsSub (Links.yearPattern (get_real_url_date r.url).1) u = true)
    (hnohttp : containsSub httpChars u = false) :
    href_filter u = httpChars ++ u ∧
    href_filter u ∈ Links.snapshotLinks r (get_real_url_date r.url).1 ∧
    ∃ p, (Links.processSnapshot attempt year).write =
      some (p, List.intercalate ['\n']
        (Links.snapshotLinks r (get_real_url_date r.url).1) ++ ['\n']) := by
  refine ⟨href_filter_of_no_http u hnohttp,
    snapshotLinks_mem r _ a u ha hhref hyear, ?_⟩
  unfold Links.processSnapshot
  rw [hf]
  dsimp only
  rw [if_neg (by simp [hs])]
  split
  · exact ⟨_, rfl⟩
  · exact ⟨_, rfl⟩

/-- The embedded split does not depend on the fuel once the fuel
dominates the length of the scanned string. -/
theorem splitAux_fuel (sep : Str) (hsep : sep ≠ []) :
    ∀ f₁ f₂ s, s.length ≤ f₁ → s.length ≤ f₂ → splitAux sep f₁ s = splitAux sep f₂ s := by
  intro f₁
  induction f₁ with
  | zero =>
    intro f₂ s h1 _
    have : s = [] := List.length_eq_zero.mp (Nat.le_zero.mp h1)
    subst this
    rw [splitAux_nil, splitAux_nil]
  | succ f ih =>
    intro f₂ s h1 h2
    rcases s with _ | ⟨c, rest⟩
    · rw [splitAux_nil, splitAux_nil]
    · rcases f₂ with _ | g
      · simp at h2
      · have hslen : 1 ≤ sep.length := List.length_pos.mpr hsep
        rcases hp : sep.isPrefixOf (c :: rest) with _ | _
        · rw [splitAux_cons_neg _ _ _ _ hp, splitAux_cons_neg _ _ _ _ hp,
            ih g rest (by simpa using Nat.le_of_succ_le_succ h1)
              (by simpa using Nat.le_of_succ_le_succ h2)]
        · rw [splitAux_cons_pos _ _ _ _ hp, splitAux_cons_pos _ _ _ _ hp]
          congr 1
          apply ih g
          · simp only [List.length_drop, List.length_cons]
            simp only [List.length_cons] at h1
            omega
          · simp only [List.length_drop, List.length_cons]
            simp only [List.length_cons] at h2
            omega

/-- The first element of the embedded split agrees with the scanned
string on any range free of separator occurrences. -/
theorem splitAux_head_take (sep : Str) :
    ∀ f t n, t.length ≤ f → (∀ j, j < n → ¬ matchAt sep t j) →
      ((splitAux sep f t).getD 0 []).take n = t.take n := by
  intro f
  induction f with
  | zero =>
    intro t n h1 _
    have : t = [] := List.length_eq_zero.mp (Nat.le_zero.mp h1)
    subst this
    simp [splitAux_nil]
  | succ f ih =>
    intro t n h1 h2
    rcases t with _ | ⟨c, rest⟩
    · simp [splitAux_nil]
    · rcases n with _ | m
      · simp
      · have hp : sep.isPrefixOf (c :: rest) = false := by
          rcases h : sep.isPrefixOf (c :: rest) with _ | _
          · rfl
          · exact absurd ((matchAt_zero _ _).mpr (isPrefixOfIff _ _ |>.mp h))
              (h2 0 (Nat.succ_pos m))
        rw [splitAux_cons_neg _ _ _ _ hp]
        rcases hL : splitAux sep f rest with _ | ⟨x, xs⟩
        · exact absurd hL (splitAux_ne_nil sep f rest)
        · have hx := ih rest m (by simpa using Nat.le_of_succ_le_succ h1)
            (fun j hj hm => h2 (j + 1) (by omega) ((matchAt_succ sep c rest j).mpr hm))
          rw [hL] at hx
          simp only [List.getD_cons_zero] at hx
          simp only [List.modifyHead, List.getD_cons_zero, List.take_succ_cons]
          rw [hx]

/-- Splitting a string whose first separator occurrence sits right after
a clean prefix cuts off exactly that prefix. -/
theorem splitAux_marker_first (sep : Str) (hsep : sep ≠ []) :
    ∀ pre tail f, (pre ++ (sep ++ tail)).length ≤ f →
      (∀ j, j < pre.length → ¬ matchAt sep (pre ++ (sep ++ tail)) j) →
      splitAux sep f (pre ++ (sep ++ tail)) = pre :: pySplit sep tail := by
  intro pre
  induction pre with
  | nil =>
    intro tail f h1 _
    obtain ⟨a, sep2, rfl⟩ := List.exists_cons_of_ne_nil hsep
    simp only [List.nil_append, List.cons_append] at h1 ⊢
    rcases f with _ | g
    · simp at h1
    · rw [splitAux_cons_pos (a :: sep2) g a (sep2 ++ tail)
        (isPrefixOfIff _ _ |>.mpr (by
          rw [← List.cons_append]
          exact List.prefix_append (a :: sep2) tail))]
      refine congrArg (List.cons []) ?_
      rw [show (a :: (sep2 ++ tail)).drop (a :: sep2).length = tail from by
        rw [← List.cons_append]
        exact List.drop_left (a :: sep2) tail]
      apply splitAux_fuel (a :: sep2) (by simp) g tail.length tail ?_ le_rfl
      simp only [List.length_cons, List.length_append] at h1
      omega
  | cons c pre2 ih =>
    intro tail f h1 h2
    simp only [List.cons_append] at h1 ⊢
    rcases f with _ | g
    · simp at h1
    · have hp : sep.isPrefixOf (c :: (pre2 ++ (sep ++ tail))) = false := by
        rcases h : sep.isPrefixOf (c :: (pre2 ++ (sep ++ tail))) with _ | _
        · rfl
        · refine absurd ((matchAt_zero _ _).mpr (isPrefixOfIff _ _ |>.mp h)) ?_
          have := h2 0 (by simp)
          simpa using this
      rw [splitAux_cons_neg _ _ _ _ hp]
      rw [ih tail g (by simpa using Nat.le_of_succ_le_succ h1) (by
        intro j hj hm
        refine h2 (j + 1) (by simpa using Nat.succ_lt_succ hj) ?_
        simp only [List.cons_append, matchAt_succ]
        exact hm)]
      rfl

/-- Claim C4: on a final URL whose first marker occurrence is followed
by a fourteen-digit capture timestamp, get_real_url_date returns the
integer value of the first four digits as the year and of the next two
digits as the month. -/
theorem get_real_url_date_parses_timestamp (pre ts rest : Str)
    (hlen : ts.length = 14) (hdig : ∀ c ∈ ts, c.isDigit = true)
    (hfirst : ∀ j, j < pre.length →
      ¬ matchAt webMarker (pre ++ (webMarker ++ (ts ++ rest))) j) :
    get_real_url_date (pre ++ (webMarker ++ (ts ++ rest))) =
      (pyInt (ts.take 4), pyInt ((ts.drop 4).take 2)) := by
  have h8 : ∀ j, j < 8 → ¬ matchAt webMarker (ts ++ rest) j := by
    intro j hj hm
    rw [matchAt, List.drop_append_of_le_length (by omega)] at hm
    have hne : ts.drop j ≠ [] := by
      simp only [ne_eq, List.drop_eq_nil_iff]
      omega
    obtain ⟨d, u, hdu⟩ := List.exists_cons_of_ne_nil hne
    rw [hdu, List.cons_append] at hm
    have hhd : '/' = d := by
      have := (List.cons_prefix_cons.mp hm).1
      simpa [webMarker] using this
    have hdts : d ∈ ts := List.drop_subset j ts (by rw [hdu]; exact List.mem_cons_self d u)
    have := hdig d hdts
    rw [← hhd] at this
    exact absurd this (by decide)
  have hhead : ((pySplit webMarker (ts ++ rest)).getD 0 []).take 8 = (ts ++ rest).take 8 :=
    splitAux_head_take webMarker (ts ++ rest).length (ts ++ rest) 8 le_rfl h8
  simp only [get_real_url_date, pySplit]
  rw [splitAux_marker_first webMarker (by decide) pre (ts ++ rest) _ le_rfl hfirst]
  rw [show (1 : Nat) = 0 + 1 from rfl, List.getD_cons_succ]
  rw [show List.getD (pySplit webMarker (ts ++ rest)) 0 [] =
    (pySplit webMarker (ts ++ rest)).getD 0 [] from rfl]
  rw [hhead, List.take_append_of_le_length (by omega)]
  rw [List.take_take, List.drop_take, List.take_take]
  norm_num

/-- Concrete attempt oracle used by the witnesses of the link stage
success-path claims: one response carrying a relative-href anchor. -/
def demoAttempt : Nat → AttemptOutcome := fun _ =>
  .resp ⟨200, "x/web/20190602000119/y".data,
    ⟨[⟨some "/2019/06/x.htm".data⟩], [], []⟩⟩

/-- Witness for claim C10: the relative href of the demo snapshot is
written as the malformed string http/2019/06/x.htm. -/
theorem links_no_http_href_malformed_witness :
    href_filter "/2019/06/x.htm".data = httpChars ++ "/2019/06/x.htm".data ∧
    href_filter "/2019/06/x.htm".data ∈
      Links.snapshotLinks ⟨200, "x/web/20190602000119/y".data,
        ⟨[⟨some "/2019/06/x.htm".data⟩], [], []⟩⟩
        (get_real_url_date "x/web/20190602000119/y".data).1 ∧
    ∃ p, (Links.processSnapshot demoAttempt 2019).write =
      some (p, List.intercalate ['\n']
        (Links.snapshotLinks ⟨200, "x/web/20190602000119/y".data,
          ⟨[⟨some "/2019/06/x.htm".data⟩], [], []⟩⟩
          (get_real_url_date "x/web/20190602000119/y".data).1) ++ ['\n']) :=
  links_no_http_href_malformed demoAttempt 2019
    ⟨200, "x/web/20190602000119/y".data, ⟨[⟨some "/2019/06/x.htm".data⟩], [], []⟩⟩
    ⟨some "/2019/06/x.htm".data⟩ "/2019/06/x.htm".data
    rfl rfl (by decide) rfl (by decide) (by decide)

/-- The prefix of the example final URL before its first marker. -/
def exPre : Str := "https://web.archive.org".data

/-- The example fourteen-digit capture timestamp. -/
def exTs : Str := "20190602000119".data

/-- The tail of the example final URL after the timestamp. -/
def exTail : Str := "/https://site.example/2019/06/x.htm".data

/-- Witness for claim C4 at the example final URL: timestamp
20190602000119 parses to year 2019 and month 6. -/
theorem get_real_url_date_parses_timestamp_witness :
    get_real_url_date (exPre ++ (webMarker ++ (exTs ++ exTail))) = (2019, 6) := by
  rw [get_real_url_date_parses_timestamp exPre exTs exTail (by decide) (by decide)
    (by decide)]
  decide

/-- Claim C9: a successfully fetched snapshot whose extracted link set
is empty still gets exactly one lone newline character appended to its
partition file. -/
theorem links_empty_set_writes_blank_line (attempt : Nat → AttemptOutcome) (year : Nat)
    (r : Response)
    (hf : (Links.fetchWithRetries attempt).1 = some r)
    (hs : r.status = 200)
    (hempty : Links.snapshotLinks r (get_real_url_date r.url).1 = []) :
    ∃ p, (Links.processSnapshot attempt year).write = some (p, ['\n']) := by
  unfold Links.processSnapshot
  rw [hf]
  dsimp only
  rw [if_neg (by simp [hs]), hempty]
  split
  · exact ⟨_, rfl⟩
  · exact ⟨_, rfl⟩

/-- Snapshot oracle whose page holds no href matching the actual year:
used by the witness of claim C9. -/
def demoAttemptEmpty : Nat → AttemptOutcome := fun _ =>
  .resp ⟨200, "x/web/20190602000119/y".data, ⟨[⟨some "/misc/a.htm".data⟩], [], []⟩⟩

/-- Witness for claim C9: the demo snapshot with no matching anchor
appends exactly one newline character. -/
theorem links_empty_set_writes_blank_line_witness :
    ∃ p, (Links.processSnapshot demoAttemptEmpty 2019).write = some (p, ['\n']) :=
  links_empty_set_writes_blank_line demoAttemptEmpty 2019
    ⟨200, "x/web/20190602000119/y".data, ⟨[⟨some "/misc/a.htm".data⟩], [], []⟩⟩
    rfl rfl (by decide)

/-- Claim C5: a successfully processed snapshot is appended to the file
root/actualYear/actualMonth-actualYear.txt for the date parsed from the
final response URL; the actual-year directory is recorded as created
exactly when it differs from the nominal year, and the nominal-year
directory is the one used when the two coincide. -/
theorem links_output_partition_actual_date (attempt : Nat → AttemptOutcome) (year : Nat)
    (r : Response)
    (hf : (Links.fetchWithRetries attempt).1 = some r)
    (hs : r.status = 200) :
    ∃ content,
      (Links.processSnapshot attempt year).write =
        some (Links.pathJoin
          (Links.pathJoin Links.OUTPUT_FILES_PATH (toString (get_real_url_date r.url).1))
          (toString (get_real_url_date r.url).2 ++ "-" ++
            toString (get_real_url_date r.url).1 ++ ".txt"), content) ∧
      (year ≠ (get_real_url_date r.url).1 →
        Links.pathJoin Links.OUTPUT_FILES_PATH (toString (get_real_url_date r.url).1) ∈
          (Links.processSnapshot attempt year).dirsCreated) ∧
      (year = (get_real_url_date r.url).1 →
        (Links.processSnapshot attempt year).dirsCreated = []) := by
  unfold Links.processSnapshot
  rw [hf]
  dsimp only
  rw [if_neg (by simp [hs])]
  by_cases hy : year = (get_real_url_date r.url).1
  · rw [if_neg (by simpa using hy)]
    refine ⟨List.intercalate ['\n']
      (Links.snapshotLinks r (get_real_url_date r.url).1) ++ ['\n'], ?_, ?_, ?_⟩
    · rw [hy]
    · intro hcontra
      exact absurd hy hcontra
    · intro _
      rfl
  · rw [if_pos hy]
    exact ⟨List.intercalate ['\n']
      (Links.snapshotLinks r (get_real_url_date r.url).1) ++ ['\n'],
      rfl, fun _ => List.mem_singleton.mpr rfl, fun h => absurd h hy⟩

/-- Snapshot oracle whose actual capture year 2021 differs from the
nominal year 2020 handed to the worker. -/
def demoAttempt21 : Nat → AttemptOutcome := fun _ =>
  .resp ⟨200, "x/web/20210602000119/y".data, ⟨[], [], []⟩⟩

/-- Witness for claim C5: nominal year 2020 with actual capture year
2021 writes under the 2021 partition and records that directory as
created. -/
theorem links_output_partition_actual_date_witness :
    ∃ content,
      (Links.processSnapshot demoAttempt21 2020).write =
        some ("out/uol_links/2021/6-2021.txt", content) ∧
      "out/uol_links/2021" ∈ (Links.processSnapshot demoAttempt21 2020).dirsCreated := by
  obtain ⟨c, h1, h2, _⟩ := links_output_partition_actual_date demoAttempt21 2020
    ⟨200, "x/web/20210602000119/y".data, ⟨[], [], []⟩⟩ rfl rfl
  refine ⟨c, ?_, ?_⟩
  · have hpath : Links.pathJoin
        (Links.pathJoin Links.OUTPUT_FILES_PATH
          (toString (get_real_url_date ("x/web/20210602000119/y".data)).1))
        (toString (get_real_url_date ("x/web/20210602000119/y".data)).2 ++ "-" ++
          toString (get_real_url_date ("x/web/20210602000119/y".data)).1 ++ ".txt") =
        "out/uol_links/2021/6-2021.txt" := by decide
    rw [hpath] at h1
    exact h1
  · have h3 := h2 (by decide)
    have h4 : Links.pathJoin Links.OUTPUT_FILES_PATH
        (toString (get_real_url_date ("x/web/20210602000119/y".data)).1) =
        "out/uol_links/2021" := by decide
    rw [← h4]
    exact h3

theorem isExn_exists (a : AttemptOutcome) (h : isExn a = true) : ∃ e, a = .exn e := by
  cases a
  · exact ⟨_, rfl⟩
  · simp [isExn] at h

/-- Claim C2: a snapshot whose fetch raises a retryable transport error
on all three attempts is a permanent failure: the loss counter grows by
exactly one, nothing is appended for it, and the worker loop continues
with the remaining snapshots. -/
theorem links_retry_exhaustion_counted_once (attempt : Nat → AttemptOutcome) (year : Nat)
    (h : ∀ j, j < 3 → isExn (attempt j) = true) :
    Links.processSnapshot attempt year = ⟨1, [], none⟩ ∧
    ∀ rest, Links.workerRun year (attempt :: rest) =
      (1 + (Links.workerRun year rest).1, (Links.workerRun year rest).2) := by
  obtain ⟨e0, h0⟩ := isExn_exists _ (h 0 (by omega))
  obtain ⟨e1, h1⟩ := isExn_exists _ (h 1 (by omega))
  obtain ⟨e2, h2⟩ := isExn_exists _ (h 2 (by omega))
  have hfetch : Links.fetchWithRetries attempt = (none, 3) := by
    unfold Links.fetchWithRetries
    rw [tryLoop, h0]
    rw [tryLoop, h1]
    rw [tryLoop, h2]
    rfl
  have hunit : Links.processSnapshot attempt year = ⟨1, [], none⟩ := by
    unfold Links.processSnapshot
    rw [hfetch]
  refine ⟨hunit, ?_⟩
  intro rest
  have hcons : Links.workerRun year (attempt :: rest) =
      ((Links.processSnapshot attempt year).lossDelta + (Links.workerRun year rest).1,
        (Links.processSnapshot attempt year).write.toList ++ (Links.workerRun year rest).2) :=
    rfl
  rw [hcons, hunit]
  rfl

/-- Oracle raising a connection error on every attempt. -/
def badAttempt : Nat → AttemptOutcome := fun _ => .exn .connectionError

/-- Witness for claim C2: three connection errors cost exactly one loss
and no write, and the loop goes on. -/
theorem links_retry_exhaustion_counted_once_witness :
    Links.processSnapshot badAttempt 2019 = ⟨1, [], none⟩ ∧
    Links.workerRun 2019 [badAttempt] = (1, []) := by
  have h := links_retry_exhaustion_counted_once badAttempt 2019 (by decide)
  refine ⟨h.1, ?_⟩
  rw [h.2 []]
  rfl

/-- Claim C6: in both stages, a GET completing with a non-success
status code ends the unit at once: the retry loop stops at that
attempt, the unit fails permanently, and it is counted exactly once. -/
theorem non_success_status_immediate_failure (attempt : Nat → AttemptOutcome)
    (k : Nat) (r : Response)
    (hk : k < 3) (hpre : ∀ j, j < k → isExn (attempt j) = true)
    (hr : attempt k = .resp r) (hs : r.status ≠ 200) :
    Links.fetchWithRetries attempt = (some r, k + 1) ∧
    (∀ year, Links.processSnapshot attempt year = ⟨1, [], none⟩) ∧
    News.get_response attempt = (none, k + 1) ∧
    News.worker attempt = .ok ⟨1, none⟩ := by
  have hfetch : Links.fetchWithRetries attempt = (some r, k + 1) ∧
      News.get_response attempt = (none, k + 1) := by
    interval_cases k
    · constructor
      · unfold Links.fetchWithRetries
        rw [tryLoop, hr]
      · unfold News.get_response
        rw [News.getRespLoop, hr]
        simp [hs]
    · obtain ⟨e0, h0⟩ := isExn_exists _ (hpre 0 (by omega))
      constructor
      · unfold Links.fetchWithRetries
        rw [tryLoop, h0, tryLoop, hr]
      · unfold News.get_response
        rw [News.getRespLoop, h0, News.getRespLoop, hr]
        simp [hs]
    · obtain ⟨e0, h0⟩ := isExn_exists _ (hpre 0 (by omega))
      obtain ⟨e1, h1⟩ := isExn_exists _ (hpre 1 (by omega))
      constructor
      · unfold Links.fetchWithRetries
        rw [tryLoop, h0, tryLoop, h1, tryLoop, hr]
      · unfold News.get_response
        rw [News.getRespLoop, h0, News.getRespLoop, h1, News.getRespLoop, hr]
        simp [hs]
  refine ⟨hfetch.1, ?_, hfetch.2, ?_⟩
  · intro year
    unfold Links.processSnapshot
    rw [hfetch.1]
    dsimp only
    rw [if_pos hs]
  · unfold News.worker
    rw [hfetch.2]

/-- Oracle whose first attempt returns status 404. -/
def attempt404 : Nat → AttemptOutcome := fun _ => .resp ⟨404, [], ⟨[], [], []⟩⟩

/-- Witness for claim C6: a 404 on the first attempt stops both retry
loops after one attempt and fails the unit exactly once. -/
theorem non_success_status_immediate_failure_witness :
    Links.fetchWithRetries attempt404 = (some ⟨404, [], ⟨[], [], []⟩⟩, 1) ∧
    (∀ year, Links.processSnapshot attempt404 year = ⟨1, [], none⟩) ∧
    News.get_response attempt404 = (none, 1) ∧
    News.worker attempt404 = .ok ⟨1, none⟩ :=
  non_success_status_immediate_failure attempt404 0 ⟨404, [], ⟨[], [], []⟩⟩
    (by omega) (fun j hj => absurd hj (Nat.not_lt_zero j)) rfl (by decide)

/-- Claim C1, code bug evidence: on a fetched page where neither the
class selector nor the id selector matches any div, the worker raises
IndexError at the subscript divs[0] instead of counting an extraction
failure, so the shared error counter is not incremented for that unit. -/
theorem news_selector_miss_crash :
    News.worker (fun _ => .resp ⟨200, [], ⟨[], [], []⟩⟩) = .error .indexError ∧
    News.stageErrorDelta (fun _ => .resp ⟨200, [], ⟨[], [], []⟩⟩) = 0 :=
  ⟨rfl, rfl⟩

/-- Oracle returning a page whose article body text is the letter a. -/
def attA : Nat → AttemptOutcome := fun _ => .resp ⟨200, [], ⟨[], ["a".data], []⟩⟩

/-- Oracle returning a page whose article body text is the letter b. -/
def attB : Nat → AttemptOutcome := fun _ => .resp ⟨200, [], ⟨[], ["b".data], []⟩⟩

/-- Counterexample to claim C7 as stated: the chunk appended for a
successful unit is the normalized text followed by one newline, not by
a blank-line separator, and the file content produced by two successive
successful units contains no blank line at all. -/
theorem news_append_blank_line_cex :
    News.worker attA = .ok ⟨0, some ['a', '\n']⟩ ∧
    ['a', '\n'] ≠ ['a', '\n', '\n'] ∧
    News.worker attB = .ok ⟨0, some ['b', '\n']⟩ ∧
    containsSub ['\n', '\n'] (['a', '\n'] ++ ['b', '\n']) = false := by
  decide

/-- Claim C7 amended: a successful unit appends the normalized article
text followed by a single terminating newline, so successive bodies sit
on consecutive lines rather than in blank-line separated paragraphs. -/
theorem news_append_single_newline (attempt : Nat → AttemptOutcome) (r : Response)
    (d : Str) (ds : List Str)
    (h1 : (News.get_response attempt).1 = some r)
    (h2 : News.selectedDivs r.html = d :: ds)
    (h3 : News.clean_text d ≠ []) :
    News.worker attempt = .ok ⟨0, some (News.clean_text d ++ ['\n'])⟩ := by
  unfold News.worker
  rw [h1]
  dsimp only
  rw [h2]
  dsimp only
  rw [if_neg h3]

/-- Witness for the amended claim C7: the single-letter article page
appends exactly the cleaned text and one newline. -/
theorem news_append_single_newline_witness :
    News.worker attA = .ok ⟨0, some (News.clean_text ("a".data) ++ ['\n'])⟩ :=
  news_append_single_newline attA ⟨200, [], ⟨[], ["a".data], []⟩⟩
    ("a".data) [] rfl rfl (by decide)

/-- Every normal completion of the article worker either counted one
failure with no write or succeeded with some written chunk. -/
theorem worker_ok_cases (u : Nat → AttemptOutcome) (o : News.UnitOutcome)
    (h : News.worker u = .ok o) :
    o = ⟨1, none⟩ ∨ ∃ t, o = ⟨0, some t⟩ := by
  unfold News.worker at h
  rcases hg : (News.get_response u).1 with _ | r
  · rw [hg] at h
    dsimp only at h
    exact Or.inl (Except.ok.inj h).symm
  · rw [hg] at h
    dsimp only at h
    rcases hd : News.selectedDivs r.html with _ | ⟨d, ds⟩
    · rw [hd] at h
      dsimp only at h
      cases h
    · rw [hd] at h
      dsimp only at h
      by_cases hc : News.clean_text d = []
      · rw [if_pos hc] at h
        exact Or.inl (Except.ok.inj h).symm
      · rw [if_neg hc] at h
        exact Or.inr ⟨News.clean_text d ++ ['\n'], (Except.ok.inj h).symm⟩

/-- For a task that does not crash, the counter increment is one
exactly when the task produced no output. -/
theorem stageErrorDelta_eq (u : Nat → AttemptOutcome) (h : News.workerOk u = true) :
    News.stageErrorDelta u = if News.unitNoOutput u then 1 else 0 := by
  unfold News.workerOk at h
  unfold News.stageErrorDelta News.unitNoOutput
  rcases hw : News.worker u with e | o
  · rw [hw] at h
    cases h
  · rcases worker_ok_cases u o hw with rfl | ⟨t, rfl⟩
    · rfl
    · rfl

/-- The accumulated counter over a run equals the number of tasks that
produced no output, provided no task crashed. -/
theorem sum_errorDelta_eq_countP (l : List (Nat → AttemptOutcome))
    (h : ∀ u ∈ l, News.workerOk u = true) :
    (l.map News.stageErrorDelta).sum = l.countP News.unitNoOutput := by
  induction l with
  | nil => rfl
  | cons u us ih =>
    simp only [List.map_cons, List.sum_cons, List.countP_cons]
    rw [ih (fun v hv => h v (List.mem_cons_of_mem u hv)),
      stageErrorDelta_eq u (h u (List.mem_cons_self u us))]
    by_cases hno : News.unitNoOutput u
    · simp only [hno, if_true, if_pos]
      omega
    · simp only [hno, if_false]
      omega

/-- Claim C8: when every submitted task completes normally, the stage
report gives success rate (attempted - permanently failed) / attempted
* 100, together with the succeeded and attempted counts, where the
permanently failed tasks are exactly those that appended nothing. -/
theorem news_success_rate_formula (files : List (List (Nat → AttemptOutcome)))
    (hok : ∀ u ∈ files.flatten, News.workerOk u = true)
    (hpos : 0 < News.newsTotal files) :
    News.ERROR_COUNT files = files.flatten.countP News.unitNoOutput ∧
    News.reportedSucceeded files =
      (News.newsTotal files : Int) - (files.flatten.countP News.unitNoOutput : Int) ∧
    News.success_rate files =
      ((News.newsTotal files : ℚ) - (files.flatten.countP News.unitNoOutput : ℚ)) /
        (News.newsTotal files : ℚ) * 100 := by
  have hec : News.ERROR_COUNT files = files.flatten.countP News.unitNoOutput :=
    sum_errorDelta_eq_countP files.flatten hok
  refine ⟨hec, ?_, ?_⟩
  · unfold News.reportedSucceeded
    rw [hec]
  · unfold News.success_rate
    rw [if_pos hpos, hec]

/-- Task failing all three attempts, used in the claim C8 witness. -/
def badU : Nat → AttemptOutcome := fun _ => .exn .connectionError

/-- Task succeeding with a non-empty article body, used in the claim C8
witness. -/
def okU : Nat → AttemptOutcome := fun _ => .resp ⟨200, [], ⟨[], ["ok".data], []⟩⟩

/-- The ten-task demo run with three permanent failures. -/
def demoFiles : List (List (Nat → AttemptOutcome)) :=
  [[badU, badU, badU], [okU, okU, okU, okU, okU, okU, okU]]

/-- Witness for claim C8: ten tasks with three permanent failures are
reported as 7 of 10 succeeded, a success rate of 70 percent. -/
theorem news_success_rate_formula_witness :
    News.success_rate demoFiles = 70 ∧ News.newsTotal demoFiles = 10 ∧
    demoFiles.flatten.countP News.unitNoOutput = 3 ∧
    News.reportedSucceeded demoFiles = 7 := by
  have h := news_success_rate_formula demoFiles (by decide) (by decide)
  refine ⟨?_, by decide, by decide, ?_⟩
  · rw [h.2.2, show News.newsTotal demoFiles = 10 from by decide,
      show demoFiles.flatten.countP News.unitNoOutput = 3 from by decide]
    norm_num
  · rw [h.2.1, show News.newsTotal demoFiles = 10 from by decide,
      show demoFiles.flatten.countP News.unitNoOutput = 3 from by decide]
    norm_num

end UolScrape
